import Mathlib

/-!
Verification of the task-maker-rust execution engine against its
natural-language specification, via a shallow embedding of the Rust
sources in Lean 4.

The embedding covers:
  * `Sandbox::build_command`, `Sandbox::run`, `Sandbox::setup` and their
    helpers (`src/task-maker-exec/src/sandbox.rs`);
  * `process_provided_file` and the `ExecutorClient::evaluate` message
    loop (`src/task-maker-exec/src/client.rs`);
  * the `Executor::evaluate` loop, `worker_thread`, and the
    `ExecutorData` scheduler state (`src/src/executor/executor.rs`).

Conventions of the embedding:
  * filesystem paths are lists of components (`Path := List String`);
    `PathBuf::join` is modelled by appending one component;
  * machine floats holding time limits are modelled by rationals: the
    claims under study are about which arithmetic combination of the
    limits is passed to the sandbox, not about rounding;
  * fallible Rust code returns `Except`/`Option`; `unwrap`/`expect`
    panics are modelled by `Option` misses;
  * side effects (messages sent, files written, callbacks invoked) are
    returned as explicit lists of events.
-/

namespace TaskMaker

/-- A filesystem path, as its list of components. `pjoin p c` models
`p.join(c)` of Rust `PathBuf`. -/
abbrev Path := List String

/-- `PathBuf::join` with a single component. -/
def pjoin (p : Path) (c : String) : Path := p ++ [c]

/-- `Path::parent`: `none` for an empty path, otherwise the path without
its last component. -/
def pathParent (p : Path) : Option Path :=
  match p with
  | [] => none
  | _ :: _ => some p.dropLast

/-- The resource limits of an execution, from `ExecutionLimits` of the
`task-maker-dag` crate as used by `sandbox.rs`: optional cpu, sys and
wall clock time, optional memory (KiB), optional max number of
processes, read-only box flag, tmpfs mount flag, extra readable
directories. -/
structure ExecutionLimits where
  cpu_time : Option ℚ
  sys_time : Option ℚ
  wall_time : Option ℚ
  memory : Option Nat
  nproc : Option Nat
  read_only : Bool
  mount_tmpfs : Bool
  extra_readable_dirs : List Path
deriving DecidableEq

/-- `ExecutionCommand`: either a name resolved against the system PATH
or a local file. -/
inductive ExecutionCommand where
  | system (cmd : String)
  | localFile (cmd : Path)
deriving DecidableEq

/-- The part of an `Execution` consulted by the sandbox: stdio file
uuids, input map (sandbox path, file uuid, executable bit), output
paths, environment pairs, command, argument vector, limits, and the
DAG-level `config().extra_time` slack. -/
structure Execution where
  description : String
  command : ExecutionCommand
  args : List String
  env : List (String × String)
  stdin : Option Nat
  stdout : Option Nat
  stderr : Option Nat
  inputs : List (Path × Nat × Bool)
  outputs : List Path
  limits : ExecutionLimits
  extra_time : ℚ
deriving DecidableEq

/-- The fixed literal flags pushed by `Sandbox::build_command`. Each
constructor stands for the corresponding `tmbox` command-line literal:
`directory` = "--directory", `json` = "--json", `envFlag` = "--env",
`stdinFlag` = "--stdin", `stdoutFlag` = "--stdout",
`stderrFlag` = "--stderr", `time` = "--time", `wall` = "--wall",
`memory` = "--memory", `multiprocess` = "--multiprocess",
`readableDir` = "--readable-dir", `mountTmpfs` = "--mount-tmpfs",
`sep` = "--". -/
inductive Flag where
  | directory
  | json
  | envFlag
  | stdinFlag
  | stdoutFlag
  | stderrFlag
  | time
  | wall
  | memory
  | multiprocess
  | readableDir
  | mountTmpfs
  | sep
deriving DecidableEq

/-- One command-line argument passed to `tmbox`, keeping the provenance
of its value: a fixed flag, a path, an `--env` KEY=VALUE pair, a
rational number printed in decimal, a natural number, or a plain
string. -/
inductive Tok where
  | flag (f : Flag)
  | path (p : Path)
  | envPair (k v : String)
  | num (q : ℚ)
  | natNum (n : Nat)
  | str (s : String)
deriving DecidableEq

/-- The `READABLE_DIRS` constant of `sandbox.rs`. -/
def READABLE_DIRS : List Path :=
  [["/lib"], ["/lib64"], ["/usr"], ["/bin"], ["/opt"],
   ["/etc/alternatives/"], ["/var/lib/dpkg/alternatives/"]]

/-- The `--stdin`/`--stdout`/`--stderr` pair: the sandbox-root file when
the corresponding stream is declared, `/dev/null` otherwise
(`build_command` lines 216-236). -/
def stdioArgs (f : Flag) (present : Bool) (boxdir : Path) (file : String) : List Tok :=
  if present then [Tok.flag f, Tok.path (pjoin boxdir file)]
  else [Tok.flag f, Tok.path ["/dev/null"]]

/-- The `--env KEY=VALUE` pairs (`build_command` lines 237-240). -/
def envArgs (e : Execution) : List Tok :=
  (e.env.map (fun kv => [Tok.flag Flag.envFlag, Tok.envPair kv.1 kv.2])).flatten

/-- The combined cpu limit (`build_command` lines 242-250): the sum of
`cpu_time` and `sys_time` when both are set, the one that is set when
only one is, `none` when neither is. -/
def cpuLimit (cpu sys : Option ℚ) : Option ℚ :=
  match cpu, sys with
  | some c, some s => some (c + s)
  | some c, none => some c
  | none, some s => some s
  | none, none => none

/-- The `--time` argument (`build_command` lines 251-255): the combined
cpu limit plus `extra_time`, when the combined limit exists. -/
def timeArgs (e : Execution) : List Tok :=
  match cpuLimit e.limits.cpu_time e.limits.sys_time with
  | some c => [Tok.flag Flag.time, Tok.num (c + e.extra_time)]
  | none => []

/-- The `--wall` argument (`build_command` lines 256-260). -/
def wallArgs (e : Execution) : List Tok :=
  match e.limits.wall_time with
  | some w => [Tok.flag Flag.wall, Tok.num (w + e.extra_time)]
  | none => []

/-- The `--memory` argument (`build_command` lines 261-264). -/
def memArgs (e : Execution) : List Tok :=
  match e.limits.memory with
  | some m => [Tok.flag Flag.memory, Tok.natNum m]
  | none => []

/-- The `--multiprocess` flag (`build_command` lines 265-269): omitted
exactly when `nproc` is `Some(1)`, pushed for any other value of
`nproc`, including `None`. -/
def nprocArgs (e : Execution) : List Tok :=
  match e.limits.nproc with
  | some 1 => []
  | _ => [Tok.flag Flag.multiprocess]

/-- The `--readable-dir` arguments (`build_command` lines 270-282):
the `READABLE_DIRS` that exist on the machine, then the
`extra_readable_dirs` that exist. `isDir` models the machine-dependent
`Path::is_dir` check. -/
def readableArgs (isDir : Path → Bool) (e : Execution) : List Tok :=
  ((READABLE_DIRS.filter isDir).map
      (fun d => [Tok.flag Flag.readableDir, Tok.path d])).flatten
    ++ ((e.limits.extra_readable_dirs.filter isDir).map
      (fun d => [Tok.flag Flag.readableDir, Tok.path d])).flatten

/-- The `--mount-tmpfs` flag (`build_command` lines 283-285). -/
def tmpfsArgs (e : Execution) : List Tok :=
  if e.limits.mount_tmpfs then [Tok.flag Flag.mountTmpfs] else []

/-- Resolution of the command after `--` (`build_command` lines
286-296): a System command is looked up with `which` (an error if not
found), a Local command is passed as is. `whichFn` models the
machine-dependent PATH lookup. -/
def cmdArgs (whichFn : String → Option Path) (e : Execution) : Except String (List Tok) :=
  match e.command with
  | ExecutionCommand.system c =>
      match whichFn c with
      | some p => Except.ok [Tok.path p]
      | none => Except.error ("Executable \"" ++ c ++ "\" not found")
  | ExecutionCommand.localFile p => Except.ok [Tok.path p]

/-- All the arguments of `build_command` that precede `--`, in push
order (lines 210-286). -/
def baseArgs (isDir : Path → Bool) (boxdir : Path) (e : Execution) : List Tok :=
  [Tok.flag Flag.directory, Tok.path (pjoin boxdir "box"), Tok.flag Flag.json,
   Tok.flag Flag.envFlag, Tok.str "PATH"]
    ++ stdioArgs Flag.stdinFlag e.stdin.isSome boxdir "stdin"
    ++ stdioArgs Flag.stdoutFlag e.stdout.isSome boxdir "stdout"
    ++ stdioArgs Flag.stderrFlag e.stderr.isSome boxdir "stderr"
    ++ envArgs e
    ++ timeArgs e
    ++ wallArgs e
    ++ memArgs e
    ++ nprocArgs e
    ++ readableArgs isDir e
    ++ tmpfsArgs e
    ++ [Tok.flag Flag.sep]

/-- `Sandbox::build_command` (lines 209-301): the full `tmbox` argument
vector, or an error when a System command cannot be resolved. -/
def buildCommand (isDir : Path → Bool) (whichFn : String → Option Path)
    (boxdir : Path) (e : Execution) : Except String (List Tok) :=
  match cmdArgs whichFn e with
  | Except.error m => Except.error m
  | Except.ok cmd =>
      Except.ok (baseArgs isDir boxdir e ++ cmd ++ e.args.map Tok.str)

/-- The JSON outcome reported by `tmbox` (struct `TMBoxResult`,
sandbox.rs lines 73-93). -/
structure TMBoxResult where
  error : Bool
  message : Option String
  cpu_time : Option ℚ
  sys_time : Option ℚ
  wall_time : Option ℚ
  memory_usage : Option Nat
  status_code : Option Nat
  signal : Option Nat
  killed_by_sandbox : Option Bool
deriving DecidableEq

/-- `ExecutionResourcesUsage` as filled by `Sandbox::run`. -/
structure ExecutionResourcesUsage where
  cpu_time : ℚ
  sys_time : ℚ
  wall_time : ℚ
  memory : Nat
deriving DecidableEq

/-- `SandboxResult` (sandbox.rs lines 28-46): either the statistics of
a process the sandbox managed to run, or a sandbox-level error carrying
only a message. -/
inductive SandboxResult where
  | success (exit_status : Nat) (signal : Option Nat)
      (resources : ExecutionResourcesUsage) (was_killed : Bool)
  | failed (error : String)
deriving DecidableEq

/-- The outcome mapping of `Sandbox::run` (lines 135-158): an `error`
outcome becomes `failed` with the message (or a placeholder when the
message is missing); otherwise the statistics are unwrapped (`none`
models the `unwrap` panics on a malformed outcome) and a reported
signal of `0` is surfaced as no signal. -/
def runOutcome (o : TMBoxResult) : Option SandboxResult :=
  if o.error then
    some (SandboxResult.failed (o.message.getD "No output from sandbox"))
  else
    match o.signal, o.status_code, o.cpu_time, o.sys_time, o.wall_time,
        o.memory_usage, o.killed_by_sandbox with
    | some sg, some sc, some ct, some st, some wt, some mu, some kb =>
        let signal := if sg = 0 then none else some sg
        some (SandboxResult.success sc signal
          { cpu_time := ct, sys_time := st, wall_time := wt, memory := mu } kb)
    | _, _, _, _, _, _, _ => none

/-- A filesystem operation performed by `Sandbox::setup` and its
helpers. -/
inductive FsOp where
  | mkdirAll (p : Path)
  | copy (src dest : Path)
  | chmod (p : Path) (mode : Nat)
  | create (p : Path)
deriving DecidableEq

/-- `Sandbox::write_sandbox_file` (lines 352-361): create the parent
directories, copy the source, and chmod `0o500` when executable,
`0o400` otherwise. `none` models the `expect` panic on a parentless
destination. -/
def writeSandboxFile (dest src : Path) (executable : Bool) : Option (List FsOp) :=
  (pathParent dest).map fun par =>
    [FsOp.mkdirAll par, FsOp.copy src dest,
     FsOp.chmod dest (if executable then 0o500 else 0o400)]

/-- `Sandbox::touch_file` (lines 364-371): create the parent
directories, create an empty file, chmod it. -/
def touchFile (dest : Path) (mode : Nat) : Option (List FsOp) :=
  (pathParent dest).map fun par =>
    [FsOp.mkdirAll par, FsOp.create dest, FsOp.chmod dest mode]

/-- The stdin preparation step of `Sandbox::setup` (lines 315-321):
copy the stdin dependency, not executable; `none` when the dependency
handle is missing (the `expect` panic). -/
def setupStdin (boxDir : Path) (e : Execution) (depKeys : Nat → Option Path) :
    Option (List FsOp) :=
  match e.stdin with
  | some f =>
      match depKeys f with
      | none => none
      | some src => writeSandboxFile (pjoin boxDir "stdin") src false
  | none => some []

/-- The input-copy loop of `Sandbox::setup` (lines 328-334). -/
def setupInputs (boxDir : Path) (inputs : List (Path × Nat × Bool))
    (depKeys : Nat → Option Path) : Option (List FsOp) :=
  match inputs with
  | [] => some []
  | (p, f, ex) :: rest =>
      match depKeys f with
      | none => none
      | some src =>
          match writeSandboxFile (boxDir ++ ["box"] ++ p) src ex with
          | none => none
          | some ops =>
              match setupInputs boxDir rest depKeys with
              | none => none
              | some restOps => some (ops ++ restOps)

/-- The output pre-touch loop of `Sandbox::setup` (lines 335-337). -/
def setupOutputs (boxDir : Path) (outputs : List Path) : Option (List FsOp) :=
  match outputs with
  | [] => some []
  | p :: rest =>
      match touchFile (boxDir ++ ["box"] ++ p) 0o600 with
      | none => none
      | some ops =>
          match setupOutputs boxDir rest with
          | none => none
          | some restOps => some (ops ++ restOps)

/-- `Sandbox::setup` (lines 304-344) as the ordered list of filesystem
operations it performs: create `box/`; copy stdin if declared;
pre-touch stdout and stderr with mode `0o600` if declared; copy every
input with restrictive permissions; pre-touch every declared output;
finally chmod `box/` to `0o500` when the `read_only` limit is set. -/
def setup (boxDir : Path) (e : Execution) (depKeys : Nat → Option Path) :
    Option (List FsOp) :=
  match setupStdin boxDir e depKeys with
  | none => none
  | some stdinOps =>
      match (if e.stdout.isSome then touchFile (pjoin boxDir "stdout") 0o600
          else some []) with
      | none => none
      | some stdoutOps =>
          match (if e.stderr.isSome then touchFile (pjoin boxDir "stderr") 0o600
              else some []) with
          | none => none
          | some stderrOps =>
              match setupInputs boxDir e.inputs depKeys with
              | none => none
              | some inputOps =>
                  match setupOutputs boxDir e.outputs with
                  | none => none
                  | some outputOps =>
                      some ([FsOp.mkdirAll (pjoin boxDir "box")] ++ stdinOps
                        ++ stdoutOps ++ stderrOps ++ inputOps ++ outputOps
                        ++ (if e.limits.read_only then
                              [FsOp.chmod (pjoin boxDir "box") 0o500] else []))

/-! ### The ready-execution queue

`ExecutorData` (src/src/executor/executor.rs lines 44-52) declares
`ready_execs: BinaryHeap<ExecutionUuid>`. -/

/-- The greatest element of a list of uuids, `none` for the empty
list. -/
def listMax : List Nat → Option Nat
  | [] => none
  | x :: xs =>
      match listMax xs with
      | none => some x
      | some m => some (Nat.max x m)

/-- `BinaryHeap::push`. The model keeps the elements in insertion
order so that statements about insertion order can be expressed; the
heap itself does not observe that order. -/
def heapPush (h : List Nat) (x : Nat) : List Nat := h ++ [x]

/-- Modelled from the spec: `Scheduler::schedule` (scheduler.rs is not
under src/) pops one execution at a time from `ready_execs`, which
`ExecutorData` declares as a Rust `BinaryHeap<ExecutionUuid>`, a
max-heap whose `pop` removes and returns the greatest element by the
`Ord` of the uuids. -/
def heapPop (h : List Nat) : Option (Nat × List Nat) :=
  match listMax h with
  | none => none
  | some m => some (m, h.erase m)

/-- Fuel-indexed repeated `heapPop`. -/
def heapDrainAux : Nat → List Nat → List Nat
  | 0, _ => []
  | fuel + 1, h =>
      match heapPop h with
      | none => []
      | some (m, rest) => m :: heapDrainAux fuel rest

/-- The sequence of uuids obtained by popping `ready_execs` until it is
empty: the dispatch order of the ready executions. -/
def heapDrain (h : List Nat) : List Nat := heapDrainAux h.length h

/-! ### The client (`src/task-maker-exec/src/client.rs`) -/

/-- `WriteToCallback` of the `task-maker-dag` crate as used by
`process_provided_file`: destination path, executable bit, and whether
the file must be written even when its producer failed. -/
structure WriteToCallback where
  dest : Path
  executable : Bool
  allow_failure : Bool
deriving DecidableEq

/-- `FileCallbacks`: the registrations attached to one file uuid. The
`get_content` registration carries its size limit and the identity of
the user closure (closures are identified by numbers; only their
delivery is modelled). -/
structure FileCallbacks where
  write_to : Option WriteToCallback
  get_content : Option (Nat × Nat)
deriving DecidableEq

/-- The `ExecutionCallbacks` lists attached to one execution uuid; each
list holds the identities of the registered user closures. -/
structure ExecCallbacks where
  on_start : List Nat
  on_done : List Nat
  on_skip : List Nat
deriving DecidableEq

/-- The observable outcome of one `process_provided_file` call. -/
structure ProcResult where
  /-- Number of chunks read from the byte stream. -/
  consumed : Nat
  /-- The destination path and bytes written, when a file was created. -/
  created : Option (Path × List Nat)
  /-- Whether the destination was chmod-ed to `0o755`. -/
  execBitSet : Bool
  /-- The `get_content` closure invoked, with the buffer passed to it. -/
  contentFired : Option (Nat × List Nat)
  /-- The file callbacks left registered after the call. -/
  remaining : Option FileCallbacks
  /-- The error aborting the call, when one occurred. -/
  err : Option String
deriving DecidableEq

/-- One iteration of the chunk loop of `process_provided_file` (lines
279-287): append the chunk to the destination file when one is open,
and extend the `get_content` buffer while it is below the limit. -/
def chunkStep (limit : Nat) (st : Option (List Nat) × List Nat)
    (chunk : List Nat) : Option (List Nat) × List Nat :=
  let fileContent := st.1.map (fun c => c ++ chunk)
  let buffer :=
    if st.2.length < limit then
      st.2 ++ chunk.take (Nat.min chunk.length (limit - st.2.length))
    else st.2
  (fileContent, buffer)

/-- The file-opening decision of `process_provided_file` (lines
261-278): with a `write_to` registration, no file is opened when the
producer failed and failures are not allowed; otherwise the parent
directories are created (an error for a parentless destination) and
the destination is opened. -/
def openDest (wt : Option WriteToCallback) (success : Bool) :
    Except String (Option Path) :=
  match wt with
  | some w =>
      if !success && !w.allow_failure then Except.ok none
      else
        match pathParent w.dest with
        | none => Except.error "Invalid file destination path"
        | some _ => Except.ok (some w.dest)
  | none => Except.ok none

/-- `process_provided_file` (client.rs lines 248-304) on the callbacks
registered for one uuid. With no registration the stream is drained
and nothing else happens. Otherwise the destination is opened per
`openDest`, the chunk loop runs, the executable bit is set when
requested (`fs::metadata` fails when no file was created at the
destination: the filesystem is assumed clean), and the `get_content`
closure is taken and invoked with the buffered prefix. -/
def processOne (cbs : Option FileCallbacks) (success : Bool)
    (chunks : List (List Nat)) : ProcResult :=
  match cbs with
  | none =>
      { consumed := chunks.length, created := none, execBitSet := false,
        contentFired := none, remaining := none, err := none }
  | some cb =>
      let limit :=
        match cb.get_content with
        | some lf => lf.1
        | none => 0
      match openDest cb.write_to success with
      | Except.error e =>
          { consumed := 0, created := none, execBitSet := false,
            contentFired := none, remaining := some cb, err := some e }
      | Except.ok destOpt =>
          let loopRes := chunks.foldl (chunkStep limit)
            (destOpt.map (fun _ => []), [])
          let created :=
            match destOpt, loopRes.1 with
            | some d, some c => some (d, c)
            | _, _ => none
          let execErr :=
            match cb.write_to with
            | some w => w.executable && destOpt.isNone
            | none => false
          if execErr then
            { consumed := chunks.length, created := created,
              execBitSet := false, contentFired := none,
              remaining := some cb,
              err := some "No such file or directory" }
          else
            { consumed := chunks.length, created := created,
              execBitSet :=
                match cb.write_to with
                | some w => w.executable
                | none => false,
              contentFired := cb.get_content.map (fun lf => (lf.2, loopRes.2)),
              remaining := some { cb with get_content := none },
              err := none }

/-- A message from the executor to the client, as matched by the
`ExecutorClient::evaluate` loop (client.rs lines 124-226). A
`provideFile` carries the byte stream that follows it on the channel.
A `doneMsg` entry carries, for each produced file, its uuid, the
success flag, and the local availability of its bytes: `some chunks`
when `file_store.get` finds the blob (whose bytes are then read
locally), `none` when the blob is missing and an `AskFile` round trip
is needed. -/
inductive ServerMsg where
  | askFile (uuid : Nat)
  | provideFile (uuid : Nat) (success : Bool) (chunks : List (List Nat))
  | notifyStart (uuid worker : Nat)
  | notifyDone (uuid : Nat)
  | notifySkip (uuid : Nat)
  | errorMsg (msg : String)
  | statusMsg
  | doneMsg (results : List (Nat × Bool × Option (List (List Nat))))
deriving DecidableEq

/-- One user-callback invocation performed by the client, identified by
the uuid it concerns and the closure identity. -/
inductive Fired where
  | start (uuid id : Nat)
  | done (uuid id : Nat)
  | skip (uuid id : Nat)
  | content (uuid id : Nat)
deriving DecidableEq

/-- The mutable state of the `ExecutorClient::evaluate` loop: the two
callback registries of the DAG and the `missing_files` counter. -/
structure ClientState where
  execCbs : Nat → ExecCallbacks
  fileCbs : Nat → Option FileCallbacks
  missingFiles : Option Nat

/-- Pointwise update of the execution-callback registry. -/
def setExecCbs (st : ClientState) (u : Nat) (c : ExecCallbacks) : ClientState :=
  { st with execCbs := fun v => if v = u then c else st.execCbs v }

/-- Pointwise update of the file-callback registry. -/
def setFileCbs (st : ClientState) (u : Nat) (c : Option FileCallbacks) : ClientState :=
  { st with fileCbs := fun v => if v = u then c else st.fileCbs v }

/-- The outcome of one iteration of the client loop: the new state, the
user callbacks invoked, whether the loop ends (by `break` or by an
error return), and the causes logged at error level. -/
structure StepOut where
  state : ClientState
  fired : List Fired
  stop : Bool
  errorLog : List String

/-- Processing of one entry of a `Done` list (client.rs lines 208-224):
a locally available file is processed with `process_provided_file`; a
missing one costs an `AskFile` and bumps the missing counter. -/
def processDoneItem (st : ClientState) (item : Nat × Bool × Option (List (List Nat)))
    (missing : Nat) : ClientState × List Fired × Nat × Option String :=
  match item with
  | (u, success, some chunks) =>
      let r := processOne (st.fileCbs u) success chunks
      (setFileCbs st u r.remaining,
        r.contentFired.toList.map (fun p => Fired.content u p.1), missing, r.err)
  | (_, _, none) => (st, [], missing + 1, none)

/-- The `Done` handling loop over all reported files, stopping at the
first error as the `?` operator does. -/
def processDoneList (st : ClientState)
    (items : List (Nat × Bool × Option (List (List Nat)))) (missing : Nat) :
    ClientState × List Fired × Nat × Option String :=
  match items with
  | [] => (st, [], missing, none)
  | item :: rest =>
      let out := processDoneItem st item missing
      match out.2.2.2 with
      | some e => (out.1, out.2.1, out.2.2.1, some e)
      | none =>
          let outRest := processDoneList out.1 rest out.2.2.1
          (outRest.1, out.2.1 ++ outRest.2.1, outRest.2.2.1, outRest.2.2.2)

/-- One iteration of the `ExecutorClient::evaluate` match (client.rs
lines 124-236). Notifications drain the registration list they fire;
`Error` breaks the loop; a receive error breaks the loop only when its
root cause is a closed channel, and only other causes are logged at
error level. -/
def clientStep (st : ClientState) (msg : Except String ServerMsg) : StepOut :=
  match msg with
  | Except.ok (ServerMsg.askFile _) =>
      { state := st, fired := [], stop := false, errorLog := [] }
  | Except.ok (ServerMsg.provideFile u success chunks) =>
      let st1 := { st with missingFiles := st.missingFiles.map (fun m => m - 1) }
      let r := processOne (st1.fileCbs u) success chunks
      { state := setFileCbs st1 u r.remaining,
        fired := r.contentFired.toList.map (fun p => Fired.content u p.1),
        stop := r.err.isSome, errorLog := [] }
  | Except.ok (ServerMsg.notifyStart u _) =>
      let c := st.execCbs u
      { state := setExecCbs st u { c with on_start := [] },
        fired := c.on_start.map (Fired.start u), stop := false, errorLog := [] }
  | Except.ok (ServerMsg.notifyDone u) =>
      let c := st.execCbs u
      { state := setExecCbs st u { c with on_done := [] },
        fired := c.on_done.map (Fired.done u), stop := false, errorLog := [] }
  | Except.ok (ServerMsg.notifySkip u) =>
      let c := st.execCbs u
      { state := setExecCbs st u { c with on_skip := [] },
        fired := c.on_skip.map (Fired.skip u), stop := false, errorLog := [] }
  | Except.ok (ServerMsg.errorMsg _) =>
      { state := st, fired := [], stop := true, errorLog := [] }
  | Except.ok ServerMsg.statusMsg =>
      { state := st, fired := [], stop := false, errorLog := [] }
  | Except.ok (ServerMsg.doneMsg results) =>
      let out := processDoneList st results 0
      match out.2.2.2 with
      | some _ =>
          { state := out.1, fired := out.2.1, stop := true, errorLog := [] }
      | none =>
          { state := { out.1 with missingFiles := some out.2.2.1 },
            fired := out.2.1, stop := false, errorLog := [] }
  | Except.error c =>
      if c = "receiving on a closed channel" then
        { state := st, fired := [], stop := true, errorLog := [] }
      else
        { state := st, fired := [], stop := false, errorLog := [c] }

/-- The client loop over a stream of incoming messages, honouring the
`while missing_files.unwrap_or(1) > 0` condition and the `break`s.
Returns the final state and the concatenated callback trace. -/
def clientRun (st : ClientState) (msgs : List (Except String ServerMsg)) :
    ClientState × List Fired :=
  match msgs with
  | [] => (st, [])
  | m :: rest =>
      if st.missingFiles.getD 1 = 0 then (st, [])
      else
        let out := clientStep st m
        if out.stop then (out.state, out.fired)
        else
          let outRest := clientRun out.state rest
          (outRest.1, out.fired ++ outRest.2)

/-- The number of `get_content` registrations of a given closure
identity in the callbacks of one file. -/
def getCount (cbs : Option FileCallbacks) (id : Nat) : Nat :=
  match cbs with
  | some cb =>
      match cb.get_content with
      | some lf => if lf.2 = id then 1 else 0
      | none => 0
  | none => 0

/-- The number of registrations, in a client state, of the closure a
`Fired` event would report: how many times that closure identity occurs
in the corresponding registration list. -/
def regCount (st : ClientState) (f : Fired) : Nat :=
  match f with
  | Fired.start u id => (st.execCbs u).on_start.count id
  | Fired.done u id => (st.execCbs u).on_done.count id
  | Fired.skip u id => (st.execCbs u).on_skip.count id
  | Fired.content u id => getCount (st.fileCbs u) id

/-! ### The executor and its worker threads
(`src/src/executor/executor.rs`) -/

/-- The part of `ExecutionDAGData` the executor loop consults: the
uuids of the provided files. -/
structure DagDataM where
  providedFiles : List Nat
deriving DecidableEq

/-- `ExecutorClientMessage` (executor.rs lines 14-20). -/
inductive ExecClientMsg where
  | evaluate (d : DagDataM)
  | provideFile (uuid : Nat)
  | stop
  | status
deriving DecidableEq

/-- `ExecutorServerMessage` (executor.rs lines 22-31); a worker result
is a `(bool, String)` pair. -/
inductive ExecServerMsg where
  | askFile (uuid : Nat)
  | notifyStart (exec worker : Nat)
  | notifyDone (exec : Nat) (result : Bool × String)
  | notifySkip (exec : Nat)
  | errorMsg (msg : String)
  | statusMsg (s : String)
  | doneMsg
deriving DecidableEq

/-- `WorkerClientMessage` (executor.rs lines 33-37). -/
inductive WorkerClientMsg where
  | getWork
  | workerDone (result : Bool × String)
deriving DecidableEq

/-- `WorkerServerMessage` (executor.rs lines 39-42). -/
inductive WorkerServerMsg where
  | work (job : Nat)
deriving DecidableEq

/-- `ExecutorData` (executor.rs lines 44-52): the scheduler state
behind the single coarse mutex. `waitingWorkers` maps a worker uuid to
its work slot; `readyExecs` is the content of the `BinaryHeap`. -/
structure ExecutorState where
  dag : Option DagDataM
  clientSenderSet : Bool
  waitingWorkers : List (Nat × Option Nat)
  readyExecs : List Nat
  missingDeps : List (Nat × Nat)
  dependents : List (Nat × List Nat)
deriving DecidableEq

/-- The scheduler entry points called by the executor loop and the
worker threads. `Scheduler` itself (scheduler.rs) is not under src/,
so its operations are abstract parameters of the model: each takes the
locked state and returns the new state plus the messages it sends to
the client. -/
structure SchedOps where
  setup : ExecutorState → ExecutorState × List ExecServerMsg
  fileReady : ExecutorState → Nat → ExecutorState × List ExecServerMsg
  schedule : ExecutorState → ExecutorState × List ExecServerMsg
  execSucceded : ExecutorState → Nat → ExecutorState × List ExecServerMsg
  execFailed : ExecutorState → Nat → ExecutorState × List ExecServerMsg

/-- `Scheduler::file_ready` applied to every provided file of the DAG
(executor.rs lines 106-108). -/
def fileReadyAll (ops : SchedOps) (st : ExecutorState) (files : List Nat) :
    ExecutorState × List ExecServerMsg :=
  match files with
  | [] => (st, [])
  | f :: rest =>
      let out := ops.fileReady st f
      let outRest := fileReadyAll ops out.1 rest
      (outRest.1, out.2 ++ outRest.2)

/-- One iteration of the `Executor::evaluate` loop (executor.rs lines
85-136): the new state, the messages sent to the client, and whether
the loop ends. `checkDag` abstracts `check_dag` (check_dag.rs is not
under src/): it returns the validation failure reason, if any. On a
validation failure the executor sends one `Error` and breaks before
storing the DAG or touching the scheduler state. -/
def executorStep (checkDag : DagDataM → Option String) (ops : SchedOps)
    (st : ExecutorState) (msg : Except String ExecClientMsg) :
    ExecutorState × List ExecServerMsg × Bool :=
  match msg with
  | Except.ok (ExecClientMsg.evaluate d) =>
      match checkDag d with
      | some e => (st, [ExecServerMsg.errorMsg e], true)
      | none =>
          let st1 := { st with dag := some d, clientSenderSet := true }
          let out2 := ops.setup st1
          let out3 := fileReadyAll ops out2.1 d.providedFiles
          let out4 := ops.schedule out3.1
          (out4.1, out2.2 ++ out3.2 ++ out4.2, false)
  | Except.ok (ExecClientMsg.provideFile _) =>
      let out := ops.schedule st
      (out.1, out.2, true)
  | Except.ok ExecClientMsg.status =>
      (st, [ExecServerMsg.statusMsg "Good, thanks"], false)
  | Except.ok ExecClientMsg.stop => (st, [], true)
  | Except.error c =>
      if c = "receiving on a closed channel" then (st, [], true)
      else (st, [], false)

/-- Lookup of a worker slot in `waiting_workers`. -/
def lookupWorker (ws : List (Nat × Option Nat)) (w : Nat) : Option (Option Nat) :=
  (ws.find? (fun p => p.1 == w)).map (fun p => p.2)

/-- Removal of a worker from `waiting_workers`. -/
def removeWorker (ws : List (Nat × Option Nat)) (w : Nat) : List (Nat × Option Nat) :=
  ws.filter (fun p => !(p.1 == w))

/-- The outcome of one iteration of a `worker_thread` loop: the new
shared state, the messages sent to the worker and to the client,
whether the loop ends, and whether the thread panicked on an
assertion. -/
structure WorkerStepOut where
  state : ExecutorState
  toWorker : List WorkerServerMsg
  toClient : List ExecServerMsg
  stop : Bool
  panicked : Bool

/-- One iteration of `worker_thread` (executor.rs lines 157-214).
`GetWork` registers an empty slot for the worker (an assertion failure
if one exists) and runs the scheduler; the cooperative wait on the
slot condition variable is modelled by emitting `Work` when the
scheduler has filled the slot. `WorkerDone` notifies the client and
reports to the scheduler. A receive error whose cause is a closed
channel removes the worker, reschedules and ends the loop; any other
cause leaves the loop running. -/
def workerStep (ops : SchedOps) (st : ExecutorState) (w : Nat)
    (msg : Except String WorkerClientMsg) : WorkerStepOut :=
  match msg with
  | Except.ok WorkerClientMsg.getWork =>
      if (lookupWorker st.waitingWorkers w).isSome then
        { state := st, toWorker := [], toClient := [], stop := true,
          panicked := true }
      else
        let st1 := { st with waitingWorkers := st.waitingWorkers ++ [(w, none)] }
        let out := ops.schedule st1
        match lookupWorker out.1.waitingWorkers w with
        | some (some job) =>
            { state := out.1, toWorker := [WorkerServerMsg.work job],
              toClient := out.2, stop := false, panicked := false }
        | _ =>
            { state := out.1, toWorker := [], toClient := out.2,
              stop := false, panicked := false }
  | Except.ok (WorkerClientMsg.workerDone result) =>
      match lookupWorker st.waitingWorkers w with
      | some (some exec) =>
          let st1 := { st with waitingWorkers := removeWorker st.waitingWorkers w }
          let out :=
            if result.1 = false then ops.execFailed st1 exec
            else ops.execSucceded st1 exec
          { state := out.1, toWorker := [],
            toClient := ExecServerMsg.notifyDone exec result :: out.2,
            stop := false, panicked := false }
      | some none =>
          { state := st, toWorker := [], toClient := [], stop := true,
            panicked := true }
      | none =>
          { state := st, toWorker := [], toClient := [], stop := true,
            panicked := true }
  | Except.error c =>
      if c = "receiving on a closed channel" then
        let st1 := { st with waitingWorkers := removeWorker st.waitingWorkers w }
        let out := ops.schedule st1
        { state := out.1, toWorker := [], toClient := out.2, stop := true,
          panicked := false }
      else
        { state := st, toWorker := [], toClient := [], stop := false,
          panicked := false }

/-! ### Concrete instances used by witnesses and counterexamples -/

/-- Concrete execution exercising the time limits of C5. -/
def cExec5 : Execution :=
  { description := "t", command := ExecutionCommand.localFile ["foo"],
    args := [], env := [], stdin := none, stdout := none, stderr := none,
    inputs := [], outputs := [],
    limits :=
      { cpu_time := some 1, sys_time := some 2, wall_time := some 3,
        memory := none, nproc := none, read_only := false,
        mount_tmpfs := false, extra_readable_dirs := [] },
    extra_time := 1 }

/-- The command line built for `cExec5`. -/
def c5args : List Tok :=
  ((buildCommand (fun _ => false) (fun _ => none) [] cExec5).toOption).getD []

/-- Concrete execution with a max-processes limit of 2. -/
def cExec7 : Execution :=
  { description := "t", command := ExecutionCommand.localFile ["foo"],
    args := [], env := [], stdin := none, stdout := none, stderr := none,
    inputs := [], outputs := [],
    limits :=
      { cpu_time := none, sys_time := none, wall_time := none,
        memory := none, nproc := some 2, read_only := false,
        mount_tmpfs := false, extra_readable_dirs := [] },
    extra_time := 0 }

/-- The command line built for `cExec7`. -/
def c7args : List Tok :=
  ((buildCommand (fun _ => false) (fun _ => none) [] cExec7).toOption).getD []

/-- Concrete inputs for the C8 witness. -/
def cExec8 : Execution :=
  { description := "t", command := ExecutionCommand.localFile ["foo"],
    args := [], env := [], stdin := none, stdout := some 7, stderr := none,
    inputs := [(["in.txt"], 3, false)], outputs := [["out.txt"]],
    limits :=
      { cpu_time := none, sys_time := none, wall_time := none,
        memory := none, nproc := none, read_only := true,
        mount_tmpfs := false, extra_readable_dirs := [] },
    extra_time := 0 }

/-- Concrete dependency keys for the C8 witness. -/
def cDepKeys : Nat → Option Path :=
  fun f => if f = 3 then some ["/store/k3"] else none

/-- The filesystem operations of the C8 witness setup. -/
def c8ops : List FsOp :=
  (setup ["/tmp/sbox"] cExec8 cDepKeys).getD []

/-- Concrete write-to registration for the C1 witness. -/
def cWT : WriteToCallback :=
  { dest := ["out.txt"], executable := false, allow_failure := false }

/-- Concrete file callbacks for the C1 witness. -/
def cFileCb : FileCallbacks := { write_to := some cWT, get_content := none }

/-- Trivial scheduler operations for concrete executor runs. -/
def cSchedOps : SchedOps :=
  { setup := fun s => (s, []), fileReady := fun s _ => (s, []),
    schedule := fun s => (s, []), execSucceded := fun s _ => (s, []),
    execFailed := fun s _ => (s, []) }

/-- The initial executor state (`ExecutorData::new`). -/
def cExecState : ExecutorState :=
  { dag := none, clientSenderSet := false, waitingWorkers := [],
    readyExecs := [], missingDeps := [], dependents := [] }

/-- The client state with no registrations. -/
def cClientState : ClientState :=
  { execCbs := fun _ => { on_start := [], on_done := [], on_skip := [] },
    fileCbs := fun _ => none, missingFiles := none }

/-! ## Theorems -/

lemma listMax_mem : ∀ {h : List Nat} {m : Nat}, listMax h = some m → m ∈ h := by
  intro h
  induction h with
  | nil => intro m hm; simp [listMax] at hm
  | cons x xs ih =>
      intro m hm
      unfold listMax at hm
      cases hx : listMax xs with
      | none => rw [hx] at hm; simp at hm; simp [hm]
      | some k =>
          rw [hx] at hm
          simp only [Option.some.injEq] at hm
          subst hm
          rcases Nat.le_total x k with hle | hle
          · have hk : x.max k = k := Nat.max_eq_right hle
            rw [hk]
            exact List.mem_cons_of_mem x (ih hx)
          · have hk : x.max k = x := Nat.max_eq_left hle
            rw [hk]
            exact List.mem_cons_self x xs

lemma listMax_eq_none {h : List Nat} (hm : listMax h = none) : h = [] := by
  cases h with
  | nil => rfl
  | cons x xs =>
      unfold listMax at hm
      cases hx : listMax xs <;> rw [hx] at hm <;> simp at hm

lemma le_listMax : ∀ {h : List Nat} {m : Nat}, listMax h = some m →
    ∀ x ∈ h, x ≤ m := by
  intro h
  induction h with
  | nil => intro m _ x hx; simp at hx
  | cons y ys ih =>
      intro m hm x hx
      unfold listMax at hm
      cases hy : listMax ys with
      | none =>
          rw [hy] at hm
          simp only [Option.some.injEq] at hm
          subst hm
          have h0 := listMax_eq_none hy
          subst h0
          rcases List.mem_cons.mp hx with rfl | hx'
          · exact Nat.le_refl x
          · simp at hx'
      | some k =>
          rw [hy] at hm
          simp only [Option.some.injEq] at hm
          subst hm
          rcases List.mem_cons.mp hx with rfl | hx'
          · exact Nat.le_max_left x k
          · exact Nat.le_trans (ih hy x hx') (Nat.le_max_right y k)

lemma heapDrainAux_perm : ∀ (fuel : Nat) (h : List Nat), h.length ≤ fuel →
    List.Perm (heapDrainAux fuel h) h := by
  intro fuel
  induction fuel with
  | zero =>
      intro h hl
      have : h = [] := List.eq_nil_of_length_eq_zero (Nat.le_zero.mp hl)
      subst this
      simp [heapDrainAux]
  | succ n ih =>
      intro h hl
      unfold heapDrainAux heapPop
      cases hm : listMax h with
      | none => simp [listMax_eq_none hm]
      | some m =>
          simp only
          have hmem : m ∈ h := listMax_mem hm
          have hlen : (h.erase m).length = h.length - 1 :=
            List.length_erase_of_mem hmem
          have hpos : 0 < h.length := List.length_pos_of_mem hmem
          have hle : (h.erase m).length ≤ n := by omega
          exact ((ih (h.erase m) hle).cons m).trans
            (List.perm_cons_erase hmem).symm

lemma heapDrainAux_sorted : ∀ (fuel : Nat) (h : List Nat), h.length ≤ fuel →
    List.Sorted (· ≥ ·) (heapDrainAux fuel h) := by
  intro fuel
  induction fuel with
  | zero => intro h _; simp [heapDrainAux]
  | succ n ih =>
      intro h hl
      unfold heapDrainAux heapPop
      cases hm : listMax h with
      | none => simp
      | some m =>
          simp only
          have hmem : m ∈ h := listMax_mem hm
          have hlen : (h.erase m).length = h.length - 1 :=
            List.length_erase_of_mem hmem
          have hpos : 0 < h.length := List.length_pos_of_mem hmem
          have hle : (h.erase m).length ≤ n := by omega
          rw [List.sorted_cons]
          refine ⟨fun b hb => ?_, ih _ hle⟩
          have hb' : b ∈ h.erase m := ((heapDrainAux_perm n _ hle).mem_iff).mp hb
          exact le_listMax hm b (List.mem_of_mem_erase hb')

/-- C4: the claim states that of two ready executions the one inserted
earlier is dispatched first, with uuid breaking ties. Counterexample:
insert uuid 1 and then uuid 2 into `ready_execs`; the pop returns
uuid 2, the most recently inserted one, because the `BinaryHeap` pops
the greatest uuid regardless of insertion order. -/
theorem ready_execs_insertion_counterexample :
    heapPop (heapPush (heapPush [] 1) 2) = some (2, [1]) ∧ (2 : Nat) ≠ 1 := by
  decide

/-- C4 (amended): ready executions are dispatched in decreasing uuid
order, independent of insertion order: draining `ready_execs` yields a
permutation of the inserted uuids sorted in decreasing order. -/
theorem ready_execs_dispatch_order (h : List Nat) :
    List.Perm (heapDrain h) h ∧ List.Sorted (· ≥ ·) (heapDrain h) :=
  ⟨heapDrainAux_perm _ _ (Nat.le_refl _), heapDrainAux_sorted _ _ (Nat.le_refl _)⟩

/-! ### Sandbox command-line lemmas -/

lemma flag_mem_stdioArgs {g f : Flag} {present : Bool} {boxdir : Path}
    {file : String} (h : Tok.flag g ∈ stdioArgs f present boxdir file) :
    g = f := by
  unfold stdioArgs at h
  split at h <;> simp_all

lemma flag_mem_envArgs {g : Flag} {e : Execution} (h : Tok.flag g ∈ envArgs e) :
    g = Flag.envFlag := by
  unfold envArgs at h
  rw [List.mem_flatten] at h
  obtain ⟨l, hl, hmem⟩ := h
  rw [List.mem_map] at hl
  obtain ⟨kv, _, rfl⟩ := hl
  simp_all

lemma flag_mem_timeArgs {g : Flag} {e : Execution} (h : Tok.flag g ∈ timeArgs e) :
    g = Flag.time := by
  unfold timeArgs at h
  split at h <;> simp_all

lemma flag_mem_wallArgs {g : Flag} {e : Execution} (h : Tok.flag g ∈ wallArgs e) :
    g = Flag.wall := by
  unfold wallArgs at h
  split at h <;> simp_all

lemma flag_mem_memArgs {g : Flag} {e : Execution} (h : Tok.flag g ∈ memArgs e) :
    g = Flag.memory := by
  unfold memArgs at h
  split at h <;> simp_all

lemma flag_mem_nprocArgs {g : Flag} {e : Execution} (h : Tok.flag g ∈ nprocArgs e) :
    g = Flag.multiprocess := by
  unfold nprocArgs at h
  split at h <;> simp_all

lemma flag_mem_readableArgs {g : Flag} {isDir : Path → Bool} {e : Execution}
    (h : Tok.flag g ∈ readableArgs isDir e) : g = Flag.readableDir := by
  unfold readableArgs at h
  rw [List.mem_append] at h
  rcases h with h | h <;>
  · rw [List.mem_flatten] at h
    obtain ⟨l, hl, hmem⟩ := h
    rw [List.mem_map] at hl
    obtain ⟨d, _, rfl⟩ := hl
    simp_all

lemma flag_mem_tmpfsArgs {g : Flag} {e : Execution} (h : Tok.flag g ∈ tmpfsArgs e) :
    g = Flag.mountTmpfs := by
  unfold tmpfsArgs at h
  split at h <;> simp_all

lemma cmdArgs_shape {whichFn : String → Option Path} {e : Execution}
    {cmd : List Tok} (hc : cmdArgs whichFn e = Except.ok cmd) :
    ∃ p, cmd = [Tok.path p] := by
  unfold cmdArgs at hc
  split at hc
  · split at hc
    · simp only [Except.ok.injEq] at hc
      exact ⟨_, hc.symm⟩
    · simp at hc
  · simp only [Except.ok.injEq] at hc
    exact ⟨_, hc.symm⟩

/-- Membership of a flag token in the pre-`--` part of the command:
which segment it can come from. -/
lemma flag_mem_baseArgs {g : Flag} {isDir : Path → Bool} {boxdir : Path}
    {e : Execution} (h : Tok.flag g ∈ baseArgs isDir boxdir e) :
    g = Flag.directory ∨ g = Flag.json ∨ g = Flag.envFlag ∨ g = Flag.stdinFlag
      ∨ g = Flag.stdoutFlag ∨ g = Flag.stderrFlag
      ∨ Tok.flag g ∈ timeArgs e ∨ Tok.flag g ∈ wallArgs e
      ∨ Tok.flag g ∈ memArgs e ∨ Tok.flag g ∈ nprocArgs e
      ∨ g = Flag.readableDir ∨ g = Flag.mountTmpfs ∨ g = Flag.sep := by
  unfold baseArgs at h
  simp only [List.append_assoc, List.mem_append] at h
  rcases h with h | h | h | h | h | h | h | h | h | h | h | h
  · simp at h; tauto
  · have := flag_mem_stdioArgs h; tauto
  · have := flag_mem_stdioArgs h; tauto
  · have := flag_mem_stdioArgs h; tauto
  · have := flag_mem_envArgs h; tauto
  · tauto
  · tauto
  · tauto
  · tauto
  · have := flag_mem_readableArgs h; tauto
  · have := flag_mem_tmpfsArgs h; tauto
  · simp at h; tauto

/-- Membership of a flag token in the full command line: it is in the
pre-`--` part. -/
lemma flag_mem_buildCommand {g : Flag} {isDir : Path → Bool}
    {whichFn : String → Option Path} {boxdir : Path} {e : Execution}
    {args : List Tok} (hb : buildCommand isDir whichFn boxdir e = Except.ok args)
    (h : Tok.flag g ∈ args) : Tok.flag g ∈ baseArgs isDir boxdir e := by
  unfold buildCommand at hb
  cases hc : cmdArgs whichFn e with
  | error m => rw [hc] at hb; cases hb
  | ok cmd =>
      rw [hc] at hb
      simp only [Except.ok.injEq] at hb
      subst hb
      rw [List.mem_append, List.mem_append] at h
      rcases h with (h | h) | h
      · exact h
      · obtain ⟨p, rfl⟩ := cmdArgs_shape hc
        simp at h
      · rw [List.mem_map] at h
        obtain ⟨s, _, hs⟩ := h
        cases hs

lemma isInfix_append_left {α : Type _} {l x : List α} (y : List α)
    (h : List.IsInfix l x) : List.IsInfix l (y ++ x) := by
  obtain ⟨s, t, rfl⟩ := h
  exact ⟨y ++ s, t, by simp⟩

lemma isInfix_of_append {α : Type _} (l t : List α) : List.IsInfix l (l ++ t) :=
  ⟨[], t, rfl⟩

/-- A segment of `baseArgs` is an infix of any successfully built
command line. -/
lemma buildCommand_infix_of_baseArgs {isDir : Path → Bool}
    {whichFn : String → Option Path} {boxdir : Path} {e : Execution}
    {args seg : List Tok}
    (hb : buildCommand isDir whichFn boxdir e = Except.ok args)
    (h : List.IsInfix seg (baseArgs isDir boxdir e)) : List.IsInfix seg args := by
  unfold buildCommand at hb
  cases hc : cmdArgs whichFn e with
  | error m => rw [hc] at hb; cases hb
  | ok cmd =>
      rw [hc] at hb
      simp only [Except.ok.injEq] at hb
      subst hb
      obtain ⟨s, t, hst⟩ := h
      refine ⟨s, t ++ cmd ++ e.args.map Tok.str, ?_⟩
      rw [← hst]
      simp

/-- C5: with both `cpu_time` and `sys_time` set the sandbox receives a
`--time` limit equal to `cpu_time + sys_time + extra_time`; with
`wall_time` set it receives a `--wall` limit equal to
`wall_time + extra_time`; with neither cpu nor sys time set no `--time`
argument is passed, and with no `wall_time` no `--wall` argument is
passed. -/
theorem sandbox_time_limits (isDir : Path → Bool)
    (whichFn : String → Option Path) (boxdir : Path) (e : Execution)
    (args : List Tok) (hb : buildCommand isDir whichFn boxdir e = Except.ok args) :
    (∀ c s, e.limits.cpu_time = some c → e.limits.sys_time = some s →
        List.IsInfix [Tok.flag Flag.time, Tok.num (c + s + e.extra_time)] args)
    ∧ (∀ w, e.limits.wall_time = some w →
        List.IsInfix [Tok.flag Flag.wall, Tok.num (w + e.extra_time)] args)
    ∧ (e.limits.cpu_time = none → e.limits.sys_time = none →
        Tok.flag Flag.time ∉ args)
    ∧ (e.limits.wall_time = none → Tok.flag Flag.wall ∉ args) := by
  refine ⟨fun c s h1 h2 => ?_, fun w h3 => ?_, fun h1 h2 ht => ?_, fun h3 hw => ?_⟩
  · refine buildCommand_infix_of_baseArgs hb ?_
    have ht : timeArgs e = [Tok.flag Flag.time, Tok.num (c + s + e.extra_time)] := by
      simp [timeArgs, cpuLimit, h1, h2]
    unfold baseArgs
    simp only [List.append_assoc]
    apply isInfix_append_left
    apply isInfix_append_left
    apply isInfix_append_left
    apply isInfix_append_left
    apply isInfix_append_left
    rw [ht]
    exact isInfix_of_append _ _
  · refine buildCommand_infix_of_baseArgs hb ?_
    have hwcurr : wallArgs e = [Tok.flag Flag.wall, Tok.num (w + e.extra_time)] := by
      simp [wallArgs, h3]
    unfold baseArgs
    simp only [List.append_assoc]
    apply isInfix_append_left
    apply isInfix_append_left
    apply isInfix_append_left
    apply isInfix_append_left
    apply isInfix_append_left
    apply isInfix_append_left
    rw [hwcurr]
    exact isInfix_of_append _ _
  · have hbase := flag_mem_buildCommand hb ht
    have := flag_mem_baseArgs hbase
    have htime : timeArgs e = [] := by simp [timeArgs, cpuLimit, h1, h2]
    rcases this with h | h | h | h | h | h | h | h | h | h | h | h | h <;>
      first
        | cases h
        | (rw [htime] at h; cases h)
        | (have hq := flag_mem_wallArgs h; cases hq)
        | (have hq := flag_mem_memArgs h; cases hq)
        | (have hq := flag_mem_nprocArgs h; cases hq)
  · have hbase := flag_mem_buildCommand hb hw
    have := flag_mem_baseArgs hbase
    have hwall : wallArgs e = [] := by simp [wallArgs, h3]
    rcases this with h | h | h | h | h | h | h | h | h | h | h | h | h <;>
      first
        | cases h
        | (rw [hwall] at h; cases h)
        | (have hq := flag_mem_timeArgs h; cases hq)
        | (have hq := flag_mem_memArgs h; cases hq)
        | (have hq := flag_mem_nprocArgs h; cases hq)

/-- C5 witness: for `cExec5` the built command line contains
`--time 4` (= 1 + 2 + 1) and `--wall 4` (= 3 + 1). -/
theorem sandbox_time_limits_witness :
    List.IsInfix [Tok.flag Flag.time, Tok.num ((1 : ℚ) + 2 + 1)] c5args
      ∧ List.IsInfix [Tok.flag Flag.wall, Tok.num ((3 : ℚ) + 1)] c5args := by
  have h := sandbox_time_limits (fun _ => false) (fun _ => none) [] cExec5
    c5args (by rfl)
  exact ⟨h.1 1 2 rfl rfl, h.2.1 3 rfl⟩

/-- C6: the outcome mapping of `Sandbox::run`: an `error = true`
outcome is surfaced as `failed` carrying only the sandbox message (no
statistics), and otherwise the statistics are surfaced as `success`
with a reported signal of `0` mapped to `none` and any other signal
kept. -/
theorem run_outcome_mapping (o : TMBoxResult) :
    (o.error = true →
        runOutcome o =
          some (SandboxResult.failed (o.message.getD "No output from sandbox")))
    ∧ (o.error = false →
        ∀ sg sc ct st wt mu kb,
          o.signal = some sg → o.status_code = some sc → o.cpu_time = some ct →
          o.sys_time = some st → o.wall_time = some wt →
          o.memory_usage = some mu → o.killed_by_sandbox = some kb →
          runOutcome o =
            some (SandboxResult.success sc (if sg = 0 then none else some sg)
              { cpu_time := ct, sys_time := st, wall_time := wt, memory := mu }
              kb)) := by
  constructor
  · intro he
    simp [runOutcome, he]
  · intro he sg sc ct st wt mu kb h1 h2 h3 h4 h5 h6 h7
    simp [runOutcome, he, h1, h2, h3, h4, h5, h6, h7]

/-- C6 witness: a failing outcome carries only its message; a clean
outcome with signal 0 reports no signal. -/
theorem run_outcome_mapping_witness :
    runOutcome
        { error := true, message := some "boom", cpu_time := none,
          sys_time := none, wall_time := none, memory_usage := none,
          status_code := none, signal := none, killed_by_sandbox := none } =
      some (SandboxResult.failed "boom")
    ∧ runOutcome
        { error := false, message := none, cpu_time := some 1,
          sys_time := some 2, wall_time := some 3, memory_usage := some 4,
          status_code := some 0, signal := some 0,
          killed_by_sandbox := some false } =
      some (SandboxResult.success 0 (if (0 : Nat) = 0 then none else some 0)
        { cpu_time := 1, sys_time := 2, wall_time := 3, memory := 4 } false) := by
  constructor
  · exact (run_outcome_mapping _).1 rfl
  · exact (run_outcome_mapping _).2 rfl 0 0 1 2 3 4 false rfl rfl rfl rfl rfl rfl rfl

lemma nprocArgs_one {e : Execution} (hk : e.limits.nproc = some 1) :
    nprocArgs e = [] := by
  unfold nprocArgs
  rw [hk]

lemma nprocArgs_of_ne_one {e : Execution} {k : Nat}
    (hk : e.limits.nproc = some k) (h1 : k ≠ 1) :
    nprocArgs e = [Tok.flag Flag.multiprocess] := by
  unfold nprocArgs
  rw [hk]
  rcases k with _ | k
  · rfl
  · rcases k with _ | k
    · exact absurd rfl h1
    · rfl

lemma nprocArgs_none {e : Execution} (hk : e.limits.nproc = none) :
    nprocArgs e = [Tok.flag Flag.multiprocess] := by
  unfold nprocArgs
  rw [hk]

/-- C7 counterexample: for an execution with `nproc = Some(2)` the
sandbox invocation contains `--multiprocess` — allowing an unlimited
number of processes instead of enforcing the stated maximum of 2 — and
the value 2 appears nowhere in the invocation; indeed the invocation
is identical to the one built with `nproc = Some(5)`. -/
theorem nproc_limit_counterexample :
    cExec7.limits.nproc = some 2
    ∧ Tok.flag Flag.multiprocess ∈ c7args
    ∧ Tok.natNum 2 ∉ c7args
    ∧ buildCommand (fun _ => false) (fun _ => none) [] cExec7 =
        buildCommand (fun _ => false) (fun _ => none) []
          { cExec7 with limits := { cExec7.limits with nproc := some 5 } } := by
  refine ⟨rfl, by decide, by decide, by rfl⟩

/-- C7 (amended): the built sandbox invocation contains the
`--multiprocess` flag if and only if the max-processes limit is not
exactly `Some(1)` (so an absent limit allows multiple processes, and
`Some(1)` enforces the single-process default); the numeric value of a
limit other than 1 is not forwarded: the invocation is identical for
any two such values. -/
theorem nproc_multiprocess :
    (∀ (isDir : Path → Bool) (whichFn : String → Option Path) (boxdir : Path)
        (e : Execution) (args : List Tok),
      buildCommand isDir whichFn boxdir e = Except.ok args →
      ((Tok.flag Flag.multiprocess ∈ args) ↔ e.limits.nproc ≠ some 1))
    ∧ (∀ (isDir : Path → Bool) (whichFn : String → Option Path) (boxdir : Path)
        (e : Execution) (k kk : Nat), k ≠ 1 → kk ≠ 1 →
      buildCommand isDir whichFn boxdir
          { e with limits := { e.limits with nproc := some k } } =
        buildCommand isDir whichFn boxdir
          { e with limits := { e.limits with nproc := some kk } }) := by
  constructor
  · intro isDir whichFn boxdir e args hb
    constructor
    · intro hmem hone
      have hbase := flag_mem_buildCommand hb hmem
      have hcases := flag_mem_baseArgs hbase
      have hnp : nprocArgs e = [] := nprocArgs_one hone
      rcases hcases with h | h | h | h | h | h | h | h | h | h | h | h | h <;>
        first
          | cases h
          | (have hq := flag_mem_timeArgs h; cases hq)
          | (have hq := flag_mem_wallArgs h; cases hq)
          | (have hq := flag_mem_memArgs h; cases hq)
          | (rw [hnp] at h; cases h)
    · intro hne
      have hnp : nprocArgs e = [Tok.flag Flag.multiprocess] := by
        cases hk : e.limits.nproc with
        | none => exact nprocArgs_none hk
        | some k =>
            refine nprocArgs_of_ne_one hk fun h1 => hne ?_
            rw [hk, h1]
      have hinf : List.IsInfix [Tok.flag Flag.multiprocess] args := by
        refine buildCommand_infix_of_baseArgs hb ?_
        unfold baseArgs
        simp only [List.append_assoc]
        apply isInfix_append_left
        apply isInfix_append_left
        apply isInfix_append_left
        apply isInfix_append_left
        apply isInfix_append_left
        apply isInfix_append_left
        apply isInfix_append_left
        apply isInfix_append_left
        rw [hnp]
        exact isInfix_of_append _ _
      exact hinf.subset (List.mem_singleton_self _)
  · intro isDir whichFn boxdir e k kk hk hkk
    have h1 : nprocArgs { e with limits := { e.limits with nproc := some k } } =
        [Tok.flag Flag.multiprocess] := nprocArgs_of_ne_one rfl hk
    have h2 : nprocArgs { e with limits := { e.limits with nproc := some kk } } =
        [Tok.flag Flag.multiprocess] := nprocArgs_of_ne_one rfl hkk
    simp [buildCommand, cmdArgs, baseArgs, envArgs, stdioArgs, timeArgs,
      wallArgs, memArgs, readableArgs, tmpfsArgs, cpuLimit, h1, h2]

/-- C7 witness: for the concrete `cExec7` (nproc = 2) the flag is
present, and the invocations built for nproc = 2 and nproc = 3 are
identical. -/
theorem nproc_multiprocess_witness :
    Tok.flag Flag.multiprocess ∈ c7args
    ∧ buildCommand (fun _ => false) (fun _ => none) []
          { cExec7 with limits := { cExec7.limits with nproc := some 2 } } =
        buildCommand (fun _ => false) (fun _ => none) []
          { cExec7 with limits := { cExec7.limits with nproc := some 3 } } := by
  constructor
  · exact (nproc_multiprocess.1 (fun _ => false) (fun _ => none) [] cExec7
      c7args (by rfl)).mpr (by decide)
  · exact nproc_multiprocess.2 (fun _ => false) (fun _ => none) [] cExec7 2 3
      (by decide) (by decide)

/-! ### Sandbox setup lemmas -/

lemma writeSandboxFile_eq {dest : Path} (src : Path) (ex : Bool)
    (hne : dest ≠ []) :
    writeSandboxFile dest src ex =
      some [FsOp.mkdirAll dest.dropLast, FsOp.copy src dest,
        FsOp.chmod dest (if ex then 0o500 else 0o400)] := by
  unfold writeSandboxFile pathParent
  cases dest with
  | nil => exact absurd rfl hne
  | cons a l => simp

lemma touchFile_eq {dest : Path} (mode : Nat) (hne : dest ≠ []) :
    touchFile dest mode =
      some [FsOp.mkdirAll dest.dropLast, FsOp.create dest,
        FsOp.chmod dest mode] := by
  unfold touchFile pathParent
  cases dest with
  | nil => exact absurd rfl hne
  | cons a l => simp

lemma setupInputs_mem :
    ∀ (inputs : List (Path × Nat × Bool)) (boxDir : Path)
      (depKeys : Nat → Option Path) (ops : List FsOp),
    setupInputs boxDir inputs depKeys = some ops →
    ∀ p f ex, (p, f, ex) ∈ inputs →
      ∃ src, depKeys f = some src
        ∧ FsOp.copy src (boxDir ++ ["box"] ++ p) ∈ ops
        ∧ FsOp.chmod (boxDir ++ ["box"] ++ p)
            (if ex then 0o500 else 0o400) ∈ ops := by
  intro inputs
  induction inputs with
  | nil => intro _ _ _ _ p f ex hm; simp at hm
  | cons head rest ih =>
      intro boxDir depKeys ops hs p f ex hm
      obtain ⟨ph, fh, exh⟩ := head
      unfold setupInputs at hs
      split at hs
      next hd => cases hs
      next src hd =>
        split at hs
        next hw => cases hs
        next ops1 hw =>
          split at hs
          next hr => cases hs
          next restOps hr =>
            simp only [Option.some.injEq] at hs
            subst hs
            have hne : (boxDir ++ ["box"] ++ ph) ≠ [] := by simp
            rw [writeSandboxFile_eq src exh hne] at hw
            simp only [Option.some.injEq] at hw
            subst hw
            rcases List.mem_cons.mp hm with hm1 | hm2
            · rw [Prod.ext_iff, Prod.ext_iff] at hm1
              obtain ⟨rfl, rfl, rfl⟩ := hm1
              exact ⟨src, hd, by simp, by simp⟩
            · obtain ⟨src2, hd2, hc2, hm2x⟩ :=
                ih boxDir depKeys restOps hr p f ex hm2
              exact ⟨src2, hd2, List.mem_append_right _ hc2,
                List.mem_append_right _ hm2x⟩

/-- C8: `Sandbox::setup` creates `box/` inside the sandbox root, copies
each declared input to its sandbox-relative path under `box/` with
permissions `0o400` when not executable and `0o500` when executable,
pre-touches stdout and stderr (when declared) with mode `0o600`, and,
when the `read_only` limit is set, sets `box/` to mode `0o500` as its
final operation before exec. -/
theorem setup_filesystem_ops (boxDir : Path) (e : Execution)
    (depKeys : Nat → Option Path) (ops : List FsOp)
    (hs : setup boxDir e depKeys = some ops) :
    FsOp.mkdirAll (pjoin boxDir "box") ∈ ops
    ∧ (∀ p f ex, (p, f, ex) ∈ e.inputs →
        ∃ src, depKeys f = some src
          ∧ FsOp.copy src (boxDir ++ ["box"] ++ p) ∈ ops
          ∧ FsOp.chmod (boxDir ++ ["box"] ++ p)
              (if ex then 0o500 else 0o400) ∈ ops)
    ∧ (e.stdout.isSome = true →
        FsOp.create (pjoin boxDir "stdout") ∈ ops
          ∧ FsOp.chmod (pjoin boxDir "stdout") 0o600 ∈ ops)
    ∧ (e.stderr.isSome = true →
        FsOp.create (pjoin boxDir "stderr") ∈ ops
          ∧ FsOp.chmod (pjoin boxDir "stderr") 0o600 ∈ ops)
    ∧ (e.limits.read_only = true →
        ops.getLast? = some (FsOp.chmod (pjoin boxDir "box") 0o500)) := by
  unfold setup at hs
  cases h1 : setupStdin boxDir e depKeys with
  | none => rw [h1] at hs; cases hs
  | some stdinOps =>
  rw [h1] at hs
  cases h2 : (if e.stdout.isSome then touchFile (pjoin boxDir "stdout") 0o600
      else some []) with
  | none => rw [h2] at hs; cases hs
  | some stdoutOps =>
  rw [h2] at hs
  cases h3 : (if e.stderr.isSome then touchFile (pjoin boxDir "stderr") 0o600
      else some []) with
  | none => rw [h3] at hs; cases hs
  | some stderrOps =>
  rw [h3] at hs
  cases h4 : setupInputs boxDir e.inputs depKeys with
  | none => rw [h4] at hs; cases hs
  | some inputOps =>
  rw [h4] at hs
  cases h5 : setupOutputs boxDir e.outputs with
  | none => rw [h5] at hs; cases hs
  | some outputOps =>
  rw [h5] at hs
  simp only [Option.some.injEq] at hs
  subst hs
  refine ⟨by simp, ?_, ?_, ?_, ?_⟩
  · intro p f ex hm
    obtain ⟨src, hd, hc, hmx⟩ := setupInputs_mem e.inputs boxDir depKeys
      inputOps h4 p f ex hm
    refine ⟨src, hd, ?_, ?_⟩
    · simp only [List.append_assoc] at hc
      simp only [List.append_assoc, List.mem_append]
      tauto
    · simp only [List.append_assoc] at hmx
      simp only [List.append_assoc, List.mem_append]
      tauto
  · intro hso
    rw [hso, if_pos rfl] at h2
    rw [touchFile_eq 0o600 (by simp [pjoin])] at h2
    simp only [Option.some.injEq] at h2
    subst h2
    constructor <;>
    · simp only [List.append_assoc, List.mem_append]
      simp
  · intro hse
    rw [hse, if_pos rfl] at h3
    rw [touchFile_eq 0o600 (by simp [pjoin])] at h3
    simp only [Option.some.injEq] at h3
    subst h3
    constructor <;>
    · simp only [List.append_assoc, List.mem_append]
      simp
  · intro hro
    rw [hro, if_pos rfl]
    exact List.getLast?_concat _

/-- C8 witness: the concrete setup creates `box/`, copies the input
with mode `0o400`, pre-touches stdout with `0o600`, and ends by setting
`box/` to `0o500`. -/
theorem setup_filesystem_ops_witness :
    FsOp.mkdirAll (pjoin ["/tmp/sbox"] "box") ∈ c8ops
    ∧ FsOp.copy ["/store/k3"] (["/tmp/sbox"] ++ ["box"] ++ ["in.txt"]) ∈ c8ops
    ∧ FsOp.chmod (["/tmp/sbox"] ++ ["box"] ++ ["in.txt"]) 0o400 ∈ c8ops
    ∧ FsOp.create (pjoin ["/tmp/sbox"] "stdout") ∈ c8ops
    ∧ FsOp.chmod (pjoin ["/tmp/sbox"] "stdout") 0o600 ∈ c8ops
    ∧ c8ops.getLast? = some (FsOp.chmod (pjoin ["/tmp/sbox"] "box") 0o500) := by
  have h := setup_filesystem_ops ["/tmp/sbox"] cExec8 cDepKeys c8ops (by rfl)
  obtain ⟨src, hsrc, hcopy, hchmod⟩ := h.2.1 ["in.txt"] 3 false (by simp [cExec8])
  have hsrc2 : src = ["/store/k3"] := by
    have hx : cDepKeys 3 = some ["/store/k3"] := by simp [cDepKeys]
    rw [hx] at hsrc
    exact (Option.some.injEq .. ▸ hsrc).symm
  subst hsrc2
  exact ⟨h.1, by simpa using hcopy, by simpa using hchmod,
    (h.2.2.1 rfl).1, (h.2.2.1 rfl).2, h.2.2.2.2 rfl⟩

/-! ### Client file-processing lemmas -/

lemma chunkFold_fst_some (limit : Nat) :
    ∀ (chunks : List (List Nat)) (acc b : List Nat),
    ((chunks.foldl (chunkStep limit) (some acc, b)).1) =
      some (acc ++ chunks.flatten) := by
  intro chunks
  induction chunks with
  | nil => intro acc b; simp
  | cons c cs ih =>
      intro acc b
      rw [List.foldl_cons]
      show ((cs.foldl (chunkStep limit) (chunkStep limit (some acc, b) c)).1) = _
      have hstep : chunkStep limit (some acc, b) c =
          (some (acc ++ c), (chunkStep limit (some acc, b) c).2) := by
        simp [chunkStep]
      rw [hstep, ih]
      simp

lemma chunkFold_fst_none (limit : Nat) :
    ∀ (chunks : List (List Nat)) (b : List Nat),
    ((chunks.foldl (chunkStep limit) (none, b)).1) = none := by
  intro chunks
  induction chunks with
  | nil => intro b; rfl
  | cons c cs ih =>
      intro b
      rw [List.foldl_cons]
      have hstep : chunkStep limit (none, b) c =
          (none, (chunkStep limit (none, b) c).2) := by
        simp [chunkStep]
      rw [hstep, ih]

lemma openDest_allowed {wt : WriteToCallback} {success : Bool}
    (hc : (!success && !wt.allow_failure) = false) (hd : wt.dest ≠ []) :
    openDest (some wt) success = Except.ok (some wt.dest) := by
  simp only [openDest, hc]
  simp only [Bool.false_eq_true, if_false]
  cases hdest : wt.dest with
  | nil => exact absurd hdest hd
  | cons a l => rfl

lemma openDest_suppressed {wt : WriteToCallback} {success : Bool}
    (hc : (!success && !wt.allow_failure) = true) :
    openDest (some wt) success = Except.ok none := by
  simp only [openDest, hc]
  rfl

/-- C1: for a file carrying a `write_to` registration with a valid
destination path, processing the provided file creates a file at the
destination if and only if the producer succeeded or `allow_failure` is
set; in particular with `success = false` and `allow_failure = false`
no file is created at the destination. -/
theorem write_to_destination_iff (cb : FileCallbacks) (wt : WriteToCallback)
    (success : Bool) (chunks : List (List Nat))
    (hw : cb.write_to = some wt) (hd : wt.dest ≠ []) :
    ((processOne (some cb) success chunks).created.isSome
        = (success || wt.allow_failure))
    ∧ (success = false → wt.allow_failure = false →
        (processOne (some cb) success chunks).created = none) := by
  have hmain : (processOne (some cb) success chunks).created.isSome
      = (success || wt.allow_failure) := by
    cases hc : (!success && !wt.allow_failure) with
    | true =>
        have h1 : success = false := by
          cases success <;> simp_all
        have h2 : wt.allow_failure = false := by
          cases hall : wt.allow_failure <;> simp_all
        simp only [processOne, hw, openDest_suppressed hc]
        rw [h1, h2]
        split <;> simp
    | false =>
        have hor : (success || wt.allow_failure) = true := by
          cases success <;> cases hall : wt.allow_failure <;> simp_all
        simp only [processOne, hw, openDest_allowed hc hd, Option.map_some']
        rw [chunkFold_fst_some, hor]
        simp
  refine ⟨hmain, fun h1 h2 => ?_⟩
  subst h1
  rw [h2] at hmain
  simp only [Bool.or_self] at hmain
  exact Option.not_isSome_iff_eq_none.mp (by simp [hmain])

/-- C1 witness: with the concrete registration, a successful producer
creates the file and a failed one does not. -/
theorem write_to_destination_iff_witness :
    ((processOne (some cFileCb) true [[1, 2]]).created.isSome
        = (true || cWT.allow_failure))
    ∧ ((processOne (some cFileCb) false [[1, 2]]).created = none) := by
  constructor
  · exact (write_to_destination_iff cFileCb cWT true [[1, 2]] rfl
      (by decide)).1
  · exact (write_to_destination_iff cFileCb cWT false [[1, 2]] rfl
      (by decide)).2 rfl rfl

/-- C10: the file-processing routine consumes the whole byte stream and
writes nothing to disk when no callback is registered for the uuid,
when callbacks exist but no `write_to` is registered, and when the
`write_to` is suppressed by a failed producer without `allow_failure`.
-/
theorem provided_file_stream_drained (success : Bool)
    (chunks : List (List Nat)) :
    ((processOne none success chunks).consumed = chunks.length
      ∧ (processOne none success chunks).created = none)
    ∧ (∀ cb : FileCallbacks, cb.write_to = none →
        (processOne (some cb) success chunks).consumed = chunks.length
        ∧ (processOne (some cb) success chunks).created = none)
    ∧ (∀ (cb : FileCallbacks) (wt : WriteToCallback),
        cb.write_to = some wt → success = false → wt.allow_failure = false →
        (processOne (some cb) success chunks).consumed = chunks.length
        ∧ (processOne (some cb) success chunks).created = none) := by
  refine ⟨⟨rfl, rfl⟩, fun cb hw => ?_, fun cb wt hw h1 h2 => ?_⟩
  · have hopen : openDest none success = Except.ok none := rfl
    constructor <;>
    · simp only [processOne, hw, hopen]
      split <;> rfl
  · have hc : (!success && !wt.allow_failure) = true := by
      rw [h1, h2]
      rfl
    have hopen : openDest (some wt) success = Except.ok none :=
      openDest_suppressed hc
    constructor <;>
    · simp only [processOne, hw, hopen]
      split <;> rfl

/-- C10 witness: a stream of three chunks is fully consumed with no
callbacks registered, with a callback carrying no `write_to`, and with
a suppressed `write_to`; nothing is written in any of the cases. -/
theorem provided_file_stream_drained_witness :
    ((processOne none true [[1], [2], [3]]).consumed = 3
      ∧ (processOne none true [[1], [2], [3]]).created = none)
    ∧ ((processOne (some { write_to := none, get_content := some (1, 5) })
          true [[1], [2], [3]]).consumed = 3
      ∧ (processOne (some { write_to := none, get_content := some (1, 5) })
          true [[1], [2], [3]]).created = none)
    ∧ ((processOne (some cFileCb) false [[1], [2], [3]]).consumed = 3
      ∧ (processOne (some cFileCb) false [[1], [2], [3]]).created = none) := by
  have h := provided_file_stream_drained true [[1], [2], [3]]
  have h2 := provided_file_stream_drained false [[1], [2], [3]]
  exact ⟨h.1, h.2.1 _ rfl, h2.2.2 cFileCb cWT rfl rfl rfl⟩

/-! ### Callback-delivery counting lemmas -/

lemma count_map_pair (g : Nat → Nat → Fired)
    (hg : ∀ a b c d, g a b = g c d ↔ a = c ∧ b = d)
    (u u2 id : Nat) (l : List Nat) :
    (l.map (g u)).count (g u2 id) = if u2 = u then l.count id else 0 := by
  induction l with
  | nil => simp
  | cons x xs ih =>
      rw [List.map_cons, List.count_cons, ih, List.count_cons]
      simp only [beq_iff_eq, hg]
      by_cases h : u2 = u
      · subst h
        by_cases h2 : x = id
        · simp [h2]
        · simp [h2]
      · have hcond : ¬(u = u2 ∧ x = id) := fun hc => h hc.1.symm
        simp [h, hcond]

lemma count_eq_zero_of_ctor_ne {β : Type _} (g : β → Fired) (f : Fired)
    (l : List β) (h : ∀ b, g b ≠ f) : (l.map g).count f = 0 := by
  rw [List.count_eq_zero]
  intro hmem
  rw [List.mem_map] at hmem
  obtain ⟨b, _, hb⟩ := hmem
  exact h b hb

lemma count_content_in_contentMap (u u2 id : Nat) (l : List (Nat × List Nat)) :
    (l.map (fun p => Fired.content u p.1)).count (Fired.content u2 id) =
      if u2 = u then (l.map Prod.fst).count id else 0 := by
  induction l with
  | nil => simp
  | cons x xs ih =>
      rw [List.map_cons, List.count_cons, ih, List.map_cons, List.count_cons]
      simp only [beq_iff_eq, Fired.content.injEq]
      by_cases h : u2 = u
      · subst h
        by_cases h2 : x.1 = id
        · simp [h2]
        · simp [h2]
      · have hcond : ¬(u = u2 ∧ x.1 = id) := fun hc => h hc.1.symm
        simp [h, hcond]

lemma processOne_getCount (cbs : Option FileCallbacks) (success : Bool)
    (chunks : List (List Nat)) (id : Nat) :
    ((processOne cbs success chunks).contentFired.toList.map Prod.fst).count id
      + getCount (processOne cbs success chunks).remaining id
      = getCount cbs id := by
  cases cbs with
  | none => simp [processOne, getCount]
  | some cb =>
      simp only [processOne]
      split
      · simp [getCount]
      · split
        · simp [getCount]
        · cases hg : cb.get_content with
          | none => simp [getCount, hg]
          | some lf =>
              simp only [hg, Option.map_some', Option.toList_some,
                List.map_cons, List.map_nil, getCount]
              by_cases h : lf.2 = id
              · simp [h, List.count_singleton]
              · rw [List.count_singleton']
                simp [h, Ne.symm h]

/-- Draining `on_start` on a `NotifyStart` preserves the total count of
registrations plus deliveries, for every closure. -/
lemma notifyStart_count (st : ClientState) (u : Nat) (f : Fired) :
    ((st.execCbs u).on_start.map (Fired.start u)).count f
      + regCount (setExecCbs st u { st.execCbs u with on_start := [] }) f
      = regCount st f := by
  cases f with
  | start u2 id =>
      rw [count_map_pair Fired.start (by intro a b c d; simp) u u2 id]
      by_cases h : u2 = u
      · subst h
        simp [regCount, setExecCbs]
      · simp [regCount, setExecCbs, h]
  | done u2 id =>
      rw [count_eq_zero_of_ctor_ne _ _ _ (by intro b; simp)]
      by_cases h : u2 = u
      · subst h
        simp [regCount, setExecCbs]
      · simp [regCount, setExecCbs, h]
  | skip u2 id =>
      rw [count_eq_zero_of_ctor_ne _ _ _ (by intro b; simp)]
      by_cases h : u2 = u
      · subst h
        simp [regCount, setExecCbs]
      · simp [regCount, setExecCbs, h]
  | content u2 id =>
      rw [count_eq_zero_of_ctor_ne _ _ _ (by intro b; simp)]
      simp [regCount, setExecCbs]

/-- Draining `on_done` on a `NotifyDone` preserves the count. -/
lemma notifyDone_count (st : ClientState) (u : Nat) (f : Fired) :
    ((st.execCbs u).on_done.map (Fired.done u)).count f
      + regCount (setExecCbs st u { st.execCbs u with on_done := [] }) f
      = regCount st f := by
  cases f with
  | start u2 id =>
      rw [count_eq_zero_of_ctor_ne _ _ _ (by intro b; simp)]
      by_cases h : u2 = u
      · subst h
        simp [regCount, setExecCbs]
      · simp [regCount, setExecCbs, h]
  | done u2 id =>
      rw [count_map_pair Fired.done (by intro a b c d; simp) u u2 id]
      by_cases h : u2 = u
      · subst h
        simp [regCount, setExecCbs]
      · simp [regCount, setExecCbs, h]
  | skip u2 id =>
      rw [count_eq_zero_of_ctor_ne _ _ _ (by intro b; simp)]
      by_cases h : u2 = u
      · subst h
        simp [regCount, setExecCbs]
      · simp [regCount, setExecCbs, h]
  | content u2 id =>
      rw [count_eq_zero_of_ctor_ne _ _ _ (by intro b; simp)]
      simp [regCount, setExecCbs]

/-- Draining `on_skip` on a `NotifySkip` preserves the count. -/
lemma notifySkip_count (st : ClientState) (u : Nat) (f : Fired) :
    ((st.execCbs u).on_skip.map (Fired.skip u)).count f
      + regCount (setExecCbs st u { st.execCbs u with on_skip := [] }) f
      = regCount st f := by
  cases f with
  | start u2 id =>
      rw [count_eq_zero_of_ctor_ne _ _ _ (by intro b; simp)]
      by_cases h : u2 = u
      · subst h
        simp [regCount, setExecCbs]
      · simp [regCount, setExecCbs, h]
  | done u2 id =>
      rw [count_eq_zero_of_ctor_ne _ _ _ (by intro b; simp)]
      by_cases h : u2 = u
      · subst h
        simp [regCount, setExecCbs]
      · simp [regCount, setExecCbs, h]
  | skip u2 id =>
      rw [count_map_pair Fired.skip (by intro a b c d; simp) u u2 id]
      by_cases h : u2 = u
      · subst h
        simp [regCount, setExecCbs]
      · simp [regCount, setExecCbs, h]
  | content u2 id =>
      rw [count_eq_zero_of_ctor_ne _ _ _ (by intro b; simp)]
      simp [regCount, setExecCbs]

/-- Taking the `get_content` registration on a provided file preserves
the count. -/
lemma provide_count (st : ClientState) (u : Nat) (success : Bool)
    (chunks : List (List Nat)) (f : Fired) :
    ((processOne (st.fileCbs u) success chunks).contentFired.toList.map
        (fun p => Fired.content u p.1)).count f
      + regCount (setFileCbs st u
          (processOne (st.fileCbs u) success chunks).remaining) f
      = regCount st f := by
  cases f with
  | start u2 id =>
      rw [count_eq_zero_of_ctor_ne _ _ _ (by intro b; simp)]
      simp [regCount, setFileCbs]
  | done u2 id =>
      rw [count_eq_zero_of_ctor_ne _ _ _ (by intro b; simp)]
      simp [regCount, setFileCbs]
  | skip u2 id =>
      rw [count_eq_zero_of_ctor_ne _ _ _ (by intro b; simp)]
      simp [regCount, setFileCbs]
  | content u2 id =>
      by_cases h : u2 = u
      · subst h
        have hmap :
            ((processOne (st.fileCbs u2) success chunks).contentFired.toList.map
              (fun p => Fired.content u2 p.1)) =
            (((processOne (st.fileCbs u2) success chunks).contentFired.toList.map
              Prod.fst).map (Fired.content u2)) := by
          rw [List.map_map]
          rfl
        rw [hmap, count_map_pair Fired.content (by intro a b c d; simp) u2 u2 id]
        rw [if_pos rfl]
        have hget := processOne_getCount (st.fileCbs u2) success chunks id
        simp only [regCount, setFileCbs, if_pos rfl]
        simpa using hget
      · rw [count_content_in_contentMap, if_neg h]
        simp [regCount, setFileCbs, h]

lemma processDoneList_count :
    ∀ (items : List (Nat × Bool × Option (List (List Nat)))) (st : ClientState)
      (missing : Nat) (f : Fired),
    (processDoneList st items missing).2.1.count f
      + regCount (processDoneList st items missing).1 f = regCount st f := by
  intro items
  induction items with
  | nil => intro st missing f; simp [processDoneList]
  | cons item rest ih =>
      intro st missing f
      obtain ⟨u, success, avail⟩ := item
      cases avail with
      | none =>
          simp only [processDoneList, processDoneItem]
          rw [List.nil_append]
          exact ih st (missing + 1) f
      | some chunks =>
          simp only [processDoneList, processDoneItem]
          split
          · exact provide_count st u success chunks f
          · dsimp only
            rw [List.count_append]
            have h1 := provide_count st u success chunks f
            have h2 := ih (setFileCbs st u
              (processOne (st.fileCbs u) success chunks).remaining) missing f
            omega

/-- One client-loop iteration preserves, for every closure, the number
of deliveries plus the number of remaining registrations. -/
lemma clientStep_count (st : ClientState) (m : Except String ServerMsg)
    (f : Fired) :
    (clientStep st m).fired.count f + regCount (clientStep st m).state f
      = regCount st f := by
  cases m with
  | error c =>
      simp only [clientStep]
      split <;> simp
  | ok msg =>
      cases msg with
      | askFile u => simp [clientStep]
      | statusMsg => simp [clientStep]
      | errorMsg e => simp [clientStep]
      | notifyStart u w =>
          simp only [clientStep]
          exact notifyStart_count st u f
      | notifyDone u =>
          simp only [clientStep]
          exact notifyDone_count st u f
      | notifySkip u =>
          simp only [clientStep]
          exact notifySkip_count st u f
      | provideFile u success chunks =>
          simp only [clientStep]
          exact provide_count { st with
            missingFiles := st.missingFiles.map (fun m => m - 1) } u success
            chunks f
      | doneMsg results =>
          simp only [clientStep]
          split
          · exact processDoneList_count results st 0 f
          · exact processDoneList_count results st 0 f

/-- C2: at-most-once callback delivery. Over any stream of server
messages, for every closure identity, the number of times the client
invokes it plus the number of its registrations still present at the
end equals the number of its initial registrations: registrations are
drained exactly when they fire, so a closure registered once is invoked
at most once, and a second notification for the same uuid finds no
remaining closures. -/
theorem callbacks_at_most_once (msgs : List (Except String ServerMsg))
    (st : ClientState) (f : Fired) :
    (clientRun st msgs).2.count f + regCount (clientRun st msgs).1 f
      = regCount st f := by
  induction msgs generalizing st with
  | nil => simp [clientRun]
  | cons m rest ih =>
      simp only [clientRun]
      by_cases hmf : st.missingFiles.getD 1 = 0
      · rw [if_pos hmf]
        simp
      · rw [if_neg hmf]
        by_cases hstop : (clientStep st m).stop
        · rw [if_pos hstop]
          exact clientStep_count st m f
        · rw [if_neg hstop]
          dsimp only
          rw [List.count_append]
          have h1 := clientStep_count st m f
          have h2 := ih (clientStep st m).state
          omega

/-! ### Executor rejection and shutdown theorems -/

/-- C3: when `check_dag` rejects a DAG submitted with `Evaluate`, the
executor sends exactly one `Error` message carrying the validation
failure reason and terminates the evaluation loop; the state is
entirely unchanged — the DAG is not stored and no scheduler state is
initialized — and in particular no `NotifyStart` or `Done` is sent,
since the single emitted message is the `Error`. -/
theorem invalid_dag_rejection (checkDag : DagDataM → Option String)
    (ops : SchedOps) (st : ExecutorState) (d : DagDataM) (e : String)
    (h : checkDag d = some e) :
    executorStep checkDag ops st (Except.ok (ExecClientMsg.evaluate d)) =
      (st, [ExecServerMsg.errorMsg e], true) := by
  simp [executorStep, h]

/-- C3 witness: a DAG rejected with reason "MissingDependency" yields
exactly one Error message, an unchanged state, and termination. -/
theorem invalid_dag_rejection_witness :
    executorStep (fun _ => some "MissingDependency") cSchedOps cExecState
      (Except.ok (ExecClientMsg.evaluate { providedFiles := [] })) =
      (cExecState, [ExecServerMsg.errorMsg "MissingDependency"], true) :=
  invalid_dag_rejection (fun _ => some "MissingDependency") cSchedOps
    cExecState { providedFiles := [] } "MissingDependency" rfl

/-- C9: on each of the three receive loops — the client loop, the
executor client loop, and an executor worker thread — a receive error
terminates the loop if and only if its root cause is exactly
"receiving on a closed channel"; in the client loop such a shutdown is
additionally not logged at error level, while any other cause is. -/
theorem closed_channel_shutdown :
    (∀ (st : ClientState) (c : String),
        ((clientStep st (Except.error c)).stop = true
            ↔ c = "receiving on a closed channel")
        ∧ ((clientStep st (Except.error c)).errorLog = []
            ↔ c = "receiving on a closed channel"))
    ∧ (∀ (checkDag : DagDataM → Option String) (ops : SchedOps)
        (st : ExecutorState) (c : String),
        (executorStep checkDag ops st (Except.error c)).2.2 = true
          ↔ c = "receiving on a closed channel")
    ∧ (∀ (ops : SchedOps) (st : ExecutorState) (w : Nat) (c : String),
        (workerStep ops st w (Except.error c)).stop = true
          ↔ c = "receiving on a closed channel") := by
  refine ⟨fun st c => ⟨?_, ?_⟩, ⟨fun cd ops st c => ?_, fun ops st w c => ?_⟩⟩
  · by_cases h : c = "receiving on a closed channel" <;> simp [clientStep, h]
  · by_cases h : c = "receiving on a closed channel" <;> simp [clientStep, h]
  · by_cases h : c = "receiving on a closed channel" <;> simp [executorStep, h]
  · by_cases h : c = "receiving on a closed channel" <;> simp [workerStep, h]

/-- C9 witness: a closed-channel receive error stops the client loop;
a receive error with another cause does not. -/
theorem closed_channel_shutdown_witness :
    (clientStep cClientState
        (Except.error "receiving on a closed channel")).stop = true
    ∧ (clientStep cClientState (Except.error "boom")).stop = false := by
  constructor
  · exact (closed_channel_shutdown.1 cClientState _).1.mpr rfl
  · have h := (closed_channel_shutdown.1 cClientState "boom").1
    cases hs : (clientStep cClientState (Except.error "boom")).stop
    · rfl
    · exact absurd (h.mp hs) (by decide)

end TaskMaker
